import Mathlib

/-!
Verification of the clash_star_tracker segmentation / reconciliation / scoring
pipeline.  Python sources are shallowly embedded: machine integers become
`Int`/`Nat`, Python `None` becomes `Option`, dictionaries become association
lists with first-match lookup and head insertion (so that later insertions
shadow earlier ones, as dict assignment does), and operations that raise
(`sys.exit`, `IndexError`, `AttributeError`) return `none`.
-/

namespace StarTracker

/-! ## Score glyphs (ocr.score_from_stars output alphabet)

`score_from_stars` returns one of three one-character strings per star third:
a new star (the filled glyph, produced when full white is present), an old
star (the outline glyph), or no star (the underscore).  A score is the
three-character concatenation, embedded here as a list of glyphs. -/

inductive Glyph where
  | newStar : Glyph
  | oldStar : Glyph
  | noStar  : Glyph
deriving DecidableEq, Repr, Fintype

abbrev Score := List Glyph

open Glyph

/-! ## Scoring engine (player_utils.py) -/

/-- The penalty fields of `gameRulePresets` hold either an integer or the
literal sentinel string "Negate earned stars". -/
inductive PenaltyCfg where
  | negateEarned : PenaltyCfg
  | fixed : Int → PenaltyCfg
deriving DecidableEq, Repr

/-- `presets.gameRulePresets`: thresholds, penalties and bonus used by
`playerData.total_score`. -/
structure gameRulePresets where
  noThreeStarDroppingPenalty : PenaltyCfg
  noThreeStarDroppingThreshold : Int
  droppingForFirstAttackPenalty : PenaltyCfg
  droppingForFirstAttackThreshold : Int
  successfulJumpBonus : Int
  successfulJumpThreshold : Int
deriving Repr

/-- Defaults from `gameRulePresets.__init__` (presets.py lines 313-323). -/
def defaultGameRules : gameRulePresets where
  noThreeStarDroppingPenalty := PenaltyCfg.fixed (-1)
  noThreeStarDroppingThreshold := -5
  droppingForFirstAttackPenalty := PenaltyCfg.negateEarned
  droppingForFirstAttackThreshold := -10
  successfulJumpBonus := 1
  successfulJumpThreshold := 5

/-- `player_utils.attackData` (the fields `total_score` reads). -/
structure attackData where
  rank : Option Int
  target : Option String
  score : Option Score
deriving DecidableEq, Repr

/-- `player_utils.playerData` (the fields `total_score` reads). -/
structure playerData where
  rank : Option Int
  name : String
  attacks : List attackData
deriving DecidableEq, Repr

/-- `attack.score.count("★") + attack.score.count("☆")`: one point per star
glyph, old or new. -/
def starCount (sc : Score) : Int :=
  (sc.count newStar : Int) + (sc.count oldStar : Int)

/-- A penalty branch in `total_score`: the sentinel subtracts the stars just
added (`total_score -= count★ + count☆`), an integer is added as-is
(`total_score += int(penalty)`). -/
def applyPenalty (p : PenaltyCfg) (stars : Int) : Int :=
  match p with
  | PenaltyCfg.negateEarned => -stars
  | PenaltyCfg.fixed n => n

/-- The body of `total_score`'s loop for one attack, threading the
accumulator (player_utils.py lines 50-72). -/
def totalScoreStep (rules : gameRulePresets) (playerRank : Int)
    (acc : Int) (attack : attackData) : Int :=
  match attack.score, attack.rank with
  | some sc, some ar =>
    let stars := starCount sc
    let acc := acc + stars
    let diff := playerRank - ar
    let acc := if diff ≤ rules.noThreeStarDroppingThreshold ∧ noStar ∈ sc then
        acc + applyPenalty rules.noThreeStarDroppingPenalty stars else acc
    let acc := if diff ≤ rules.droppingForFirstAttackThreshold ∧ newStar ∉ sc then
        acc + applyPenalty rules.droppingForFirstAttackPenalty stars else acc
    if diff ≥ rules.successfulJumpThreshold ∧ oldStar ∈ sc then
      acc + rules.successfulJumpBonus else acc
  | _, _ => acc

/-- `playerData.total_score` (player_utils.py lines 44-73). -/
def total_score (rules : gameRulePresets) (p : playerData) : Int :=
  if p.rank = none ∨ p.attacks = [] then 0
  else match p.rank with
    | none => 0
    | some pr => p.attacks.foldl (totalScoreStep rules pr) 0

/-- Per-attack contribution, written after the amended wording of the spec's
scoring rules: add one point per star glyph; if the rank gap is at most the
no-clean-dropping threshold and a NO-star glyph is present, apply the first
penalty; if the gap is at most the stealing threshold and no new-star glyph
is present, apply the second penalty; if the gap is at least the jump
threshold and an old-star glyph is present, add the bonus.  An attack with a
missing rank or score contributes zero. -/
def specAttackContribution (rules : gameRulePresets) (playerRank : Int)
    (attack : attackData) : Int :=
  match attack.score, attack.rank with
  | some sc, some ar =>
    let stars := starCount sc
    let diff := playerRank - ar
    stars
      + (if diff ≤ rules.noThreeStarDroppingThreshold ∧ noStar ∈ sc then
          applyPenalty rules.noThreeStarDroppingPenalty stars else 0)
      + (if diff ≤ rules.droppingForFirstAttackThreshold ∧ newStar ∉ sc then
          applyPenalty rules.droppingForFirstAttackPenalty stars else 0)
      + (if diff ≥ rules.successfulJumpThreshold ∧ oldStar ∈ sc then
          rules.successfulJumpBonus else 0)
  | _, _ => 0

/-- The worked example of the spec: a player at rank 10 with attacks
`(enemy_rank=9, score="★★☆")` and `(enemy_rank=40, score="★__")`. -/
def workedExamplePlayer : playerData where
  rank := some 10
  name := "example"
  attacks :=
    [ { rank := some 9, target := some "a", score := some [newStar, newStar, oldStar] },
      { rank := some 40, target := some "b", score := some [newStar, noStar, noStar] } ]

/-! ## Score-string validity check (image_processing.process_attack, lines 144-152)

Python's `str.find` returns the index of the first occurrence or −1; the
fatal-error test compares those first-occurrence indices pairwise. -/

/-- Index of the first occurrence of a glyph (Python `score.find(g)`, with
`none` for −1). -/
def firstIdx (g : Glyph) : List Glyph → Option Nat
  | [] => none
  | x :: xs => if x = g then some 0 else (firstIdx g xs).map (· + 1)

/-- `score.find(a) > score.find(b)` in a context where both were already
checked to be present. -/
def idxGt : Option Nat → Option Nat → Bool
  | some i, some j => decide (j < i)
  | _, _ => false

/-- The fatal-error condition on an assembled score string
(`score.find("☆") != -1 and score.find("★") != -1 and
score.find("★") > score.find("☆") or ...`).  `★` embeds as `newStar`,
`☆` as `oldStar`, `_` as `noStar`. -/
def score_invalid (sc : Score) : Bool :=
  let iNew := firstIdx newStar sc
  let iOld := firstIdx oldStar sc
  let iNo := firstIdx noStar sc
  (iOld.isSome && iNew.isSome && idxGt iNew iOld)
    || (iNew.isSome && iNo.isSome && idxGt iNew iNo)
    || (iOld.isSome && iNo.isSome && idxGt iOld iNo)

/-- `process_attack` returns an attack record for a score string exactly when
the fatal-error condition does not hold (otherwise it exits). -/
def score_accepted (sc : Score) : Bool := !(score_invalid sc)

/-- Glyph strength, after the claim's wording: new-star is stronger than
old-star, which is stronger than no-star. -/
def strength : Glyph → Nat
  | newStar => 2
  | oldStar => 1
  | noStar => 0

/-- The claim's ordering property: scanning left to right, no stronger glyph
appears after a weaker one. -/
def claimOrdered (sc : Score) : Prop :=
  sc.Pairwise (fun a b => strength b ≤ strength a)

instance instDecClaimOrdered (sc : Score) : Decidable (claimOrdered sc) := by
  unfold claimOrdered
  infer_instance

/-- `none`-tolerant strict index comparison. -/
def optLt : Option Nat → Option Nat → Prop
  | some i, some j => i < j
  | _, _ => True

instance : ∀ a b, Decidable (optLt a b) := fun a b =>
  match a, b with
  | some _, some _ => inferInstanceAs (Decidable (_ < _))
  | some _, none => inferInstanceAs (Decidable True)
  | none, _ => inferInstanceAs (Decidable True)

/-- What the code's check actually enforces: whenever two glyph kinds are
both present, their FIRST occurrences are ordered new-star before old-star
before no-star. -/
def firstOccOrdered (sc : Score) : Prop :=
  optLt (firstIdx newStar sc) (firstIdx oldStar sc)
    ∧ optLt (firstIdx newStar sc) (firstIdx noStar sc)
    ∧ optLt (firstIdx oldStar sc) (firstIdx noStar sc)

instance instDecFirstOccOrdered (sc : Score) : Decidable (firstOccOrdered sc) := by
  unfold firstOccOrdered
  infer_instance

/-! ## Enemy-rank estimation for an unseen enemy
(image_processing.process_attack, lines 114-123) -/

/-- The generator `next((n for n in range(top, 0, -1) if n not in ranks),
top + 1)`: scan `n = top, top−1, …, 1` and return the first rank not in use,
defaulting to `top + 1`. -/
def descProbe (ranks : List Nat) (top : Nat) : Nat → Nat
  | 0 => top + 1
  | n + 1 => if (n + 1) ∈ ranks then descProbe ranks top n else n + 1

/-- Rank estimated for an enemy whose rank was unreadable and whose name has
not been seen: `top = max(ranks) if ranks else 0` followed by the descending
scan (`ranks` lists the values of `s.enemiesRanks`). -/
def estimate_new_enemy_rank (ranks : List Nat) : Nat :=
  descProbe ranks (ranks.foldl max 0) (ranks.foldl max 0)

/-- The claim's words: the lowest rank strictly greater than zero not yet
used by any enemy, defaulting to one past the current maximum if all lower
ranks are taken. -/
def spec_lowest_unused_rank (ranks : List Nat) : Nat :=
  ((List.range' 1 (ranks.foldl max 0)).find? (fun n => decide (n ∉ ranks))).getD
    (ranks.foldl max 0 + 1)

/-! ## Star-width correction (image_measurement.measure_stars, lines 360-377) -/

/-- The peak-count correction applied to the measured stars width:
`if peaks >= 4 and peaks < 6: starWidth *= 3/2 elif peaks < 3:
starWidth *= 3`. -/
def star_width_correction (peaks : Nat) (w : ℚ) : ℚ :=
  if 4 ≤ peaks ∧ peaks < 6 then w * (3 / 2)
  else if peaks < 3 then w * 3
  else w

/-- `measure_stars` after the backward scan: the stars-column end is
`starsColEnd − PX_MARGIN − realStarsEnd_rel` (PX_MARGIN = 10), the measured
width is its distance to the percentage column's end, then the peak-count
correction is applied. -/
def measure_stars_width (starsColEnd realStarsEnd_rel percColEnd : Int)
    (peaks : Nat) : ℚ :=
  star_width_correction peaks
    (((starsColEnd - 10 - realStarsEnd_rel : Int) : ℚ) - (percColEnd : ℚ))

/-! ## Measurement fallback store (presets.imageSlice / imageMeasurements,
image_measurement.menu_crop lines 38-54) -/

/-- `presets.imageSlice`: a stored absolute cut plus its position as a
fraction of the containing dimension. -/
structure imageSlice where
  cut : Int
  percentage : ℚ
deriving DecidableEq, Repr

/-- `imageMeasurements.outside_range` (presets.py lines 103-110):
`highRange = errMarg`, `lowRange = 2 - errMarg`, and the measured fraction
must lie in `[expected*lowRange, expected*highRange]`. -/
def outside_range (errMarg expectedPct measuredPct : ℚ) : Bool :=
  !(decide (expectedPct * (2 - errMarg) ≤ measuredPct
      ∧ measuredPct ≤ expectedPct * errMarg))

/-- `failedTopMargin = m.outside_range(s, menuTopMargin/srcH, "menuTopMargin")
or menuTopMargin == 0` (menu_crop line 42). -/
def failedTopMargin (errMarg : ℚ) (sT : imageSlice)
    (measuredTop srcH : Int) : Bool :=
  outside_range errMarg sT.percentage ((measuredTop : ℚ) / (srcH : ℚ))
    || decide (measuredTop = 0)

/-- `failedBottomMargin = m.outside_range(s, (srcH - menuBottomMargin)/srcH,
"menuBottomMargin") or menuBottomMargin >= srcH - 1` (menu_crop line 43). -/
def failedBottomMargin (errMarg : ℚ) (sB : imageSlice)
    (measuredBottom srcH : Int) : Bool :=
  outside_range errMarg sB.percentage
      (((srcH - measuredBottom : Int) : ℚ) / (srcH : ℚ))
    || decide (measuredBottom ≥ srcH - 1)

/-- The top/bottom-margin validation-and-substitution step of `menu_crop`
(lines 41-54).  The whole block runs only when the measurement file exists
and a debug name is set; a missing stored slice makes `outside_range`
dereference `None` (a fatal `AttributeError`), embedded as `none`. -/
def menu_crop_top_bottom (fileExists dbgSet : Bool) (errMarg : ℚ)
    (mTop mBottom : Option imageSlice) (measuredTop measuredBottom srcH : Int) :
    Option (Int × Int) :=
  if fileExists && dbgSet then
    match mTop, mBottom with
    | some sT, some sB =>
      if failedTopMargin errMarg sT measuredTop srcH
          || failedBottomMargin errMarg sB measuredBottom srcH then
        some (if failedTopMargin errMarg sT measuredTop srcH then sT.cut
                else measuredTop,
              if failedBottomMargin errMarg sB measuredBottom srcH then sB.cut
                else measuredBottom)
      else
        some (measuredTop, measuredBottom)
    | _, _ => none
  else
    some (measuredTop, measuredBottom)

/-! ## The column cursor model and the six-column segmentation pass
(presets.dataColumn, image_measurement.measure_rank … measure_stars)

Measured scan results (`rankEnd`, `levelEnd`, …) are taken as parameters:
they come from `measure_image` over pixel data, which is outside this
embedding.  The pass itself — cursor arithmetic, column construction, the
enemy re-center adjustment — is translated exactly. -/

/-- `presets.dataColumn`: an absolute pixel interval along one axis.  The
field `end` of the source is written `end_` (Lean keyword). -/
structure dataColumn where
  begin : ℚ
  end_ : ℚ
  width : ℚ
deriving DecidableEq, Repr

/-- `presets.dataColumn.__init__`, relative to an explicit cursor value:
`begin = abs_pos + begin_param`, `end = end_param + begin`,
`width = end - begin`, and the cursor advances by `width + begin_param`.
Returns the column and the new cursor. -/
def dataColumn_mk (absPos : ℚ) (e : ℚ) (b : ℚ) : dataColumn × ℚ :=
  ({ begin := absPos + b, end_ := e + (absPos + b),
     width := (e + (absPos + b)) - (absPos + b) },
   absPos + ((e + (absPos + b)) - (absPos + b)) + b)

/-- The scan results feeding one six-column pass, all nonnegative pixel
positions: `rankEnd`, `levelEnd`, `playerEnd` (before the +100 look-ahead),
`enemyStart` (offset past the player column), `enemyEnd_abs` (absolute, after
any fallback), `percentageBegin` (offset past the enemy column end),
`starsBegin_abs` and `starsColEnd` (absolute), `realStarsEnd_rel` (backward
scan offset) and the bright/dark peak count. -/
structure measuredInputs where
  rankEnd : Nat
  levelEnd : Nat
  playerEnd : Nat
  enemyStart : Nat
  enemyEnd_abs : Nat
  percentageBegin : Nat
  starsBegin_abs : Nat
  starsColEnd : Nat
  realStarsEnd_rel : Nat
  peaks : Nat
deriving Repr

/-- The six columns produced by `measure_data_columns`. -/
structure sixColumns where
  rankCol : dataColumn
  levelCol : dataColumn
  playerCol : dataColumn
  enemyCol : dataColumn
  percentageCol : dataColumn
  starsCol : dataColumn
deriving Repr

/-- `image_measurement.measure_data_columns` and the functions it calls,
with the shared class-level cursor `dataColumn.abs_pos` threaded explicitly
(reset to 0 at image start).  In `measure_percentage` the source writes
`s.enemyCol.abs_pos += enemyCenter`: an augmented assignment on an instance,
which creates an instance attribute shadowing the class attribute — the
shared cursor is therefore NOT advanced by the re-center nudge, and the
enemy column's stale `width` field is likewise left untouched. -/
def measure_data_columns (i : measuredInputs) : sixColumns :=
  let r1 := dataColumn_mk 0 (i.rankEnd : ℚ) 0
  let r2 := dataColumn_mk r1.2 (i.levelEnd : ℚ) 0
  let r3 := dataColumn_mk r2.2 ((i.playerEnd : ℚ) + 100) 0
  let r4 := dataColumn_mk r3.2 ((i.enemyEnd_abs : ℚ) - (i.enemyStart : ℚ) - r3.2)
    (i.enemyStart : ℚ)
  let enemyCenter : Nat := i.percentageBegin / 2 + 1
  let enemyCol := { r4.1 with end_ := r4.1.end_ + (enemyCenter : ℚ) }
  let percentageBegin_abs : ℚ :=
    ((i.percentageBegin : ℚ) - ((i.percentageBegin / 2 : Nat) : ℚ))
      + enemyCol.end_
  let r5 := dataColumn_mk r4.2
    ((i.starsBegin_abs : ℚ) - percentageBegin_abs + (enemyCenter : ℚ)) 0
  let starWidth := star_width_correction i.peaks
    ((((i.starsColEnd : Int) - 10 - (i.realStarsEnd_rel : Int) : Int) : ℚ)
      - r5.1.end_)
  let r6 := dataColumn_mk r5.2 starWidth 0
  { rankCol := r1.1, levelCol := r2.1, playerCol := r3.1,
    enemyCol := enemyCol, percentageCol := r5.1, starsCol := r6.1 }

/-- A concrete, unremarkable set of scan results used to exhibit the gap and
the overlap in the produced columns. -/
def exSegInputs : measuredInputs where
  rankEnd := 10
  levelEnd := 10
  playerEnd := 10
  enemyStart := 5
  enemyEnd_abs := 200
  percentageBegin := 10
  starsBegin_abs := 260
  starsColEnd := 320
  realStarsEnd_rel := 10
  peaks := 6

/-! ## Identity reconciliation engine
(image_processing.alias_available / process_player_data, state.currentState)

Python dictionaries are embedded as association lists with unique keys:
lookup takes the first match, and assignment to an existing key replaces its
value in place, preserving insertion order, exactly as a dict does.  Sets are
duplicate-free lists.  List indexing out of range (`IndexError`) and
`sys.exit` are embedded as `none` results. -/

/-- `d.get(k)` on an association list. -/
def alookup {α β : Type} [DecidableEq α] : List (α × β) → α → Option β
  | [], _ => none
  | (k, v) :: rest, a => if k = a then some v else alookup rest a

/-- `d[k] = v`: replace the value of an existing key in place, else append a
new binding (kept at the head; lookup order is unaffected since keys are
unique). -/
def dictInsert {α β : Type} [DecidableEq α] (l : List (α × β)) (k : α)
    (v : β) : List (α × β) :=
  if (alookup l k).isSome then
    l.map (fun kv => if kv.1 = k then (k, v) else kv)
  else (k, v) :: l

/-- `s.add(x)` on a set embedded as a duplicate-free list. -/
def insertSeen {α : Type} [DecidableEq α] (l : List α) (a : α) : List α :=
  if a ∈ l then l else a :: l

/-- Python `str.lower()` (per character, as the alias map keys are built
from lower-cased names). -/
def strLower (s : String) : String := ⟨s.data.map Char.toLower⟩

/-- The fields of an `attackData` record the reconciliation engine reads and
writes (`rank`, `target`). -/
structure attackRec where
  rank : Option Nat
  target : Option String
deriving DecidableEq, Repr

/-- The fields of a `playerData` record the reconciliation engine reads and
writes. -/
structure playerRec where
  rank : Option Nat
  name : String
  attacks : List attackRec
deriving DecidableEq, Repr

/-- `state.currentState.MAX_WAR_PLAYERS`. -/
def MAX_WAR_PLAYERS : Nat := 50

/-- The session state touched by the reconciliation engine
(state.currentState.__init__): the fixed-capacity roster, the seen-name
sets, the per-family used-alias sets, and the enemy name/rank maps. -/
structure warState where
  war_players : List (Option playerRec)
  playersSeen : List String
  seenAliases : List (String × List String)
  enemiesSeen : List (Option String)
  enemiesRanks : List (Option String × Nat)
  war_enemies : List (Option String)
deriving DecidableEq, Repr

/-- `currentState.__init__`: `war_players = [None] * MAX_WAR_PLAYERS`,
`war_enemies = [None] * (MAX_WAR_PLAYERS + 1)`, empty sets and maps. -/
def initialWarState : warState where
  war_players := List.replicate MAX_WAR_PLAYERS none
  playersSeen := []
  seenAliases := []
  enemiesSeen := []
  enemiesRanks := []
  war_enemies := List.replicate (MAX_WAR_PLAYERS + 1) none

/-- The session configuration: `s.aliasMap` (lower-cased name → canonical
family name) and `s.multiAccounters` (canonical family name → ordered alias
list). -/
structure aliasCfg where
  aliasMap : List (String × String)
  multiAccounters : List (String × List String)
deriving Repr

/-- `s.seenAliases.setdefault(canon, set())`. -/
def setdefaultAliases (st : warState) (canon : String) : warState :=
  match alookup st.seenAliases canon with
  | some _ => st
  | none => { st with seenAliases := (canon, []) :: st.seenAliases }

/-- Add an alias to one family's used-alias set, in place. -/
def updateAliases (l : List (String × List String)) (canon a : String) :
    List (String × List String) :=
  l.map (fun kv => if kv.1 = canon then (kv.1, insertSeen kv.2 a) else kv)

/-- `s.seenAliases[canon].add(alias)` (the key is present on this path). -/
def addUsedAlias (st : warState) (canon : String) (a : String) : warState :=
  { st with seenAliases := updateAliases st.seenAliases canon a }

/-- `image_processing.alias_available` (lines 167-179): the next unused alias
for this family, or `none` if every predefined alias is taken; the
`setdefault` side effect is part of the returned state. -/
def alias_available (cfg : aliasCfg) (st : warState) (canon : String) :
    Option String × warState :=
  match alookup cfg.multiAccounters canon with
  | none => (none, st)
  | some variants =>
    let st1 := setdefaultAliases st canon
    let used := (alookup st1.seenAliases canon).getD []
    (variants.find? (fun v => decide (v ∉ used)), st1)

/-- Branch A of the multi-account resolution (lines 194-201): when the
record's numeric rank slot is already occupied by a member of the same
family, reuse the stored name. -/
def familySlotName (cfg : aliasCfg) (st : warState) (canon : String)
    (p : playerRec) : Option String :=
  match p.rank with
  | none => none
  | some r =>
    if r < st.war_players.length then
      match st.war_players.getD r none with
      | some existing =>
        if alookup cfg.aliasMap (strLower existing.name) = some canon then
          some existing.name
        else none
      | none => none
    else none

/-- The multi-account name resolution of `process_player_data`
(lines 187-213).  Result `none` means the record is silently dropped
(alias pool exhausted); the state carries any `setdefault` /
used-alias-set updates. -/
def resolve_alias (cfg : aliasCfg) (st : warState) (p : playerRec) :
    Option playerRec × warState :=
  match alookup cfg.aliasMap (strLower p.name) with
  | none => (some p, st)
  | some canon =>
    match familySlotName cfg st canon p with
    | some existingName => (some { p with name := existingName }, st)
    | none =>
      match alias_available cfg st canon with
      | (none, st1) => (none, st1)
      | (some a, st1) => (some { p with name := a }, addUsedAlias st1 canon a)

/-- The linear probe `j = 1; while l[j] is not None: j += 1`, run over the
suffix of `l` starting at index `j`: returns the first index at or past the
start whose slot is `None`, or `l.length` when the scan runs off the end —
the index of the out-of-bounds access the Python loop would attempt. -/
def probeFrom {α : Type} : List (Option α) → Nat → Nat
  | [], j => j
  | none :: _, j => j
  | some _ :: _rest, j => probeFrom _rest (j + 1)

/-- `need_free` (lines 217-218): the rank is missing, out of roster range,
or its slot is already occupied.  The `or` short-circuits, so the slot is
only read when the rank is in range. -/
def need_free (l : List (Option playerRec)) : Option Nat → Bool
  | none => true
  | some r => decide (l.length ≤ r) || (l.getD r none).isSome

/-- Lines 240-249 of `process_player_data` in isolation: fill in a missing
enemy rank, reusing the global rank for a seen target, else probing
`war_enemies` for the first free slot ≥ 1 (an off-the-end probe is the
out-of-bounds write `s.war_enemies[j] = attack.target`, embedded as
`none`). -/
def resolve_attack_rank (st : warState) (atk : attackRec) :
    Option (warState × Option Nat) :=
  match atk.rank with
  | some r => some (st, some r)
  | none =>
    if atk.target ∈ st.enemiesSeen then
      some (st, alookup st.enemiesRanks atk.target)
    else
      if probeFrom (st.war_enemies.drop 1) 1 < st.war_enemies.length then
        some ({ st with
                  war_enemies := st.war_enemies.set
                    (probeFrom (st.war_enemies.drop 1) 1) atk.target },
              some (probeFrom (st.war_enemies.drop 1) 1))
      else none

/-- Lines 240-253 of `process_player_data`, for one attack of a newly placed
player: the rank resolution above, then record the target under its rank in
`war_enemies` and `enemiesRanks` (line 251 raises `IndexError` for an
out-of-range rank, embedded as `none`) and mark it seen.  Returns the
updated state together with the attack record, whose `rank` field is
mutated in place in the source. -/
def record_attack (st : warState) (atk : attackRec) :
    Option (warState × attackRec) :=
  match resolve_attack_rank st atk with
  | none => none
  | some (st1, rank1) =>
    match rank1 with
    | some r =>
      let we := st1.war_enemies.set r atk.target
      let er := dictInsert st1.enemiesRanks atk.target r
      let es := insertSeen st1.enemiesSeen atk.target
      if r < st1.war_enemies.length then
        some ({ st1 with
                  war_enemies := we,
                  enemiesRanks := er,
                  enemiesSeen := es },
              { atk with rank := some r })
      else none
    | none =>
      some ({ st1 with enemiesSeen := insertSeen st1.enemiesSeen atk.target },
            atk)

/-- The attack loop of `process_player_data` (lines 237-253), over the
player's attack list. -/
def foldAttacks (st : warState) :
    List attackRec → Option (warState × List attackRec)
  | [] => some (st, [])
  | a :: rest =>
    match record_attack st a with
    | none => none
    | some (st1, a1) =>
      match foldAttacks st1 rest with
      | none => none
      | some (st2, rest1) => some (st2, a1 :: rest1)

/-- `image_processing.process_player_data` (lines 181-254).  The attack loop
reads and writes only the enemy structures and the placed record's attack
objects (shared by mutation in the source), so running it before the
roster/seen-set writes is observationally identical to the source order. -/
def process_player_data (cfg : aliasCfg) (st : warState) (p0 : playerRec) :
    Option warState :=
  match resolve_alias cfg st p0 with
  | (none, st1) => some st1
  | (some p, st1) =>
    if p.name ≠ "" ∧ p.name ∉ st1.playersSeen then
      match
        (if need_free st1.war_players p.rank then
          (if probeFrom (st1.war_players.drop 1) 1 < st1.war_players.length
            then some (probeFrom (st1.war_players.drop 1) 1) else none)
        else p.rank)
      with
      | none => none
      | some r =>
        match foldAttacks st1 p.attacks with
        | none => none
        | some (st2, atks) =>
          let placed := some { p with rank := some r, attacks := atks }
          some { st2 with
                   war_players := st2.war_players.set r placed,
                   playersSeen := p.name :: st2.playersSeen }
    else some st1

/-- A whole session pass: the extracted records in order. -/
def process_records (cfg : aliasCfg) (st : warState) :
    List playerRec → Option warState
  | [] => some st
  | p :: rest =>
    match process_player_data cfg st p with
    | none => none
    | some st1 => process_records cfg st1 rest

/-- The enemy-rank resolution of `process_attack` (lines 105, 114-123) for
one attack occurrence: a readable OCR rank is used as-is; otherwise a seen
enemy name reuses the stored canonical rank, and an unseen one gets the
descending-scan estimate over the values of `enemiesRanks`. -/
def attack_rank_resolution (st : warState) (target : Option String)
    (ocr : Option Nat) : Option Nat :=
  match ocr with
  | some r => some r
  | none =>
    match target with
    | none => none
    | some t =>
      if (some t) ∈ st.enemiesSeen then alookup st.enemiesRanks (some t)
      else some (estimate_new_enemy_rank (st.enemiesRanks.map Prod.snd))

/-- One enemy occurrence end to end: `process_attack`'s rank resolution
composed with `process_player_data`'s recording step for that attack. -/
def process_enemy_occurrence (st : warState) (target : Option String)
    (ocr : Option Nat) : Option warState :=
  match record_attack st { rank := attack_rank_resolution st target ocr,
                           target := target } with
  | none => none
  | some (st1, _) => some st1

/-- The names keyed in `new_scores` (gui.py lines 150-157): every placed
roster record with a non-empty name, in roster order. -/
def new_scores_names (l : List (Option playerRec)) : List String :=
  l.filterMap (fun e => match e with
    | some p => if p.name = "" then none else some p.name
    | none => none)

/-- Roster exclusivity: a name occupies at most one rank slot (and a slot
holds at most one record by construction). -/
def rosterExclusive (l : List (Option playerRec)) : Prop :=
  ∀ (i j : Nat) (p q : playerRec), l[i]? = some (some p) →
    l[j]? = some (some q) → p.name = q.name → i = j

/-- Every placed record's name has been marked seen — the auxiliary
invariant that makes placements fresh. -/
def rosterNamesSeen (st : warState) : Prop :=
  ∀ (i : Nat) (p : playerRec), st.war_players[i]? = some (some p) →
    p.name ∈ st.playersSeen

/-!
# Theorems
-/

lemma totalScoreStep_eq_add (rules : gameRulePresets) (pr acc : Int)
    (a : attackData) :
    totalScoreStep rules pr acc a = acc + specAttackContribution rules pr a := by
  rcases a with ⟨arank, atarget, ascore⟩
  rcases ascore with _ | sc <;> rcases arank with _ | ar <;>
    simp only [totalScoreStep, specAttackContribution, add_zero]
  split <;> split <;> split <;> ring

lemma foldl_totalScoreStep (rules : gameRulePresets) (pr : Int)
    (l : List attackData) (acc : Int) :
    l.foldl (totalScoreStep rules pr) acc
      = acc + (l.map (specAttackContribution rules pr)).sum := by
  induction l generalizing acc with
  | nil => simp
  | cons a l ih =>
    simp only [List.foldl_cons, List.map_cons, List.sum_cons, ih,
      totalScoreStep_eq_add]
    ring

/-- C1 (counterexample).  The claim's worked example — a player at rank 10
with attacks `(enemy_rank=9, "★★☆")` and `(enemy_rank=40, "★__")` — totals 3
under the code's `total_score` with the default rules, not the claimed 2:
attack 1 contributes its 3 star glyphs, attack 2 contributes 1 star minus
the fixed −1 no-clean-dropping penalty (triggered by the no-star glyph),
and the stealing rule does not fire because a new-star glyph is present. -/
theorem C1_worked_example_total_is_three :
    total_score defaultGameRules workedExamplePlayer = 3 ∧
      total_score defaultGameRules workedExamplePlayer ≠ 2 := by
  constructor <;> decide

/-- C1 (amended).  For every player record with a known rank and at least one
attack, `total_score` equals the sum over the attacks of the amended per-attack
contribution: one point per star glyph (old or new); if
`rank_gap = player.rank − attack.enemy_rank` is ≤ the no-clean-dropping
threshold and the score contains a NO-star glyph, the configured penalty is
applied (a fixed integer is added — the default −1 subtracts a point — and
the negate-earned-stars sentinel subtracts the star count just added); if
the gap is ≤ the stealing-lower-target threshold and the score contains no
new-star glyph, that rule's penalty is applied identically; if the gap is ≥
the successful-jump threshold and the score contains an old-star glyph, the
configured bonus is added. -/
theorem C1_total_score_correct (rules : gameRulePresets) (p : playerData)
    (r : Int) (hr : p.rank = some r) (ha : p.attacks ≠ []) :
    total_score rules p
      = (p.attacks.map (specAttackContribution rules r)).sum := by
  unfold total_score
  rw [hr]
  simp only [reduceCtorEq, ha, or_self, if_false]
  rw [foldl_totalScoreStep]
  ring

/-- C1 witness: the amended characterisation applied at the worked example. -/
theorem C1_total_score_correct_witness :
    total_score defaultGameRules workedExamplePlayer
      = ((workedExamplePlayer.attacks.map
          (specAttackContribution defaultGameRules 10)).sum) :=
  C1_total_score_correct defaultGameRules workedExamplePlayer 10
    (by decide) (by decide)

/-- C3 (counterexample).  The score string `★_★` — a no-star glyph followed
by a new-star glyph — violates the claimed left-to-right strength order, yet
`process_attack`'s fatal check accepts it: the check only compares the FIRST
occurrence of each glyph, and the first `★` here precedes the `_`. -/
theorem C3_out_of_order_score_accepted :
    score_accepted [newStar, noStar, newStar] = true
      ∧ ¬ claimOrdered [newStar, noStar, newStar] := by
  exact ⟨by decide, by decide⟩

/-- C3 (amended).  For every 3-character score string: any string in the
documented strength order is accepted, and every accepted string has its
first occurrences ordered (the first new-star precedes the first old-star
and the first no-star, and the first old-star precedes the first no-star);
an ordering violation after an earlier stronger glyph is not detected. -/
theorem C3_score_check_first_occurrences (sc : Score) (h : sc.length = 3) :
    (claimOrdered sc → score_accepted sc = true)
      ∧ (score_accepted sc = true → firstOccOrdered sc) := by
  match sc, h with
  | [a, b, c], _ =>
    revert a b c
    decide

/-- C3 witness: the amended theorem applied to the ordered string `★☆_`. -/
theorem C3_score_check_first_occurrences_witness :
    score_accepted [newStar, oldStar, noStar] = true :=
  (C3_score_check_first_occurrences [newStar, oldStar, noStar] (by decide)).1
    (by decide)

lemma foldl_max_init_le (l : List Nat) (a : Nat) : a ≤ l.foldl max a := by
  induction l generalizing a with
  | nil => exact le_refl a
  | cons x l ih => exact le_trans (le_max_left a x) (ih (max a x))

lemma le_foldl_max (l : List Nat) (a x : Nat) (hx : x ∈ l) :
    x ≤ l.foldl max a := by
  induction l generalizing a with
  | nil => cases hx
  | cons y l ih =>
    rcases List.mem_cons.mp hx with h | h
    · subst h
      exact le_trans (le_max_right a x) (foldl_max_init_le l (max a x))
    · exact ih (max a y) h

lemma descProbe_spec (ranks : List Nat) (top n : Nat) :
    (descProbe ranks top n ∉ ranks ∧ 1 ≤ descProbe ranks top n ∧
        descProbe ranks top n ≤ n ∧
        ∀ m, descProbe ranks top n < m → m ≤ n → m ∈ ranks)
      ∨ (descProbe ranks top n = top + 1 ∧ ∀ m, 1 ≤ m → m ≤ n → m ∈ ranks) := by
  induction n with
  | zero =>
    right
    exact ⟨rfl, fun m h1 h2 => absurd (lt_of_lt_of_le h1 h2) (lt_irrefl 0)⟩
  | succ n ih =>
    by_cases h : (n + 1) ∈ ranks
    · rw [show descProbe ranks top (n + 1) = descProbe ranks top n from
        by simp [descProbe, h]]
      rcases ih with ⟨h1, h2, h3, h4⟩ | ⟨h1, h2⟩
      · left
        refine ⟨h1, h2, by omega, fun m hm hm2 => ?_⟩
        by_cases hm3 : m = n + 1
        · rw [hm3]; exact h
        · exact h4 m hm (by omega)
      · right
        refine ⟨h1, fun m hm1 hm2 => ?_⟩
        by_cases hm3 : m = n + 1
        · rw [hm3]; exact h
        · exact h2 m hm1 (by omega)
    · rw [show descProbe ranks top (n + 1) = n + 1 from by simp [descProbe, h]]
      left
      exact ⟨h, by omega, le_refl _, fun m hm hm2 => absurd hm (by omega)⟩

/-- C4 (counterexample).  With enemy ranks {1, 4} already assigned, the code
(`next((n for n in range(top, 0, -1) if n not in ranks), top + 1)`) assigns
a new unseen enemy rank 3 — the greatest unused rank below the maximum —
while the claim's "lowest rank strictly greater than zero not yet used"
would be 2. -/
theorem C4_estimate_not_lowest :
    estimate_new_enemy_rank [1, 4] = 3
      ∧ spec_lowest_unused_rank [1, 4] = 2
      ∧ estimate_new_enemy_rank [1, 4] ≠ spec_lowest_unused_rank [1, 4] := by
  refine ⟨?_, ?_, ?_⟩ <;> decide

/-- C4 (amended).  When an attack's enemy rank is unreadable and the enemy
name is unseen, the assigned rank `r` is an unused rank ≥ 1, at most one past
the current maximum, and every rank strictly between `r` and the maximum is
already used — i.e. the code picks the GREATEST unused rank not exceeding
the current maximum, defaulting to one past the maximum when ranks
1..maximum are all taken. -/
theorem C4_estimate_greatest_unused (ranks : List Nat) :
    estimate_new_enemy_rank ranks ∉ ranks
      ∧ 1 ≤ estimate_new_enemy_rank ranks
      ∧ estimate_new_enemy_rank ranks ≤ ranks.foldl max 0 + 1
      ∧ ∀ m, estimate_new_enemy_rank ranks < m → m ≤ ranks.foldl max 0 →
          m ∈ ranks := by
  have h := descProbe_spec ranks (ranks.foldl max 0) (ranks.foldl max 0)
  unfold estimate_new_enemy_rank
  rcases h with ⟨h1, h2, h3, h4⟩ | ⟨h1, h2⟩
  · exact ⟨h1, h2, by omega, h4⟩
  · rw [h1]
    refine ⟨fun hmem => ?_, by omega, le_refl _, fun m hm hm2 => by omega⟩
    exact absurd (le_foldl_max ranks 0 _ hmem) (by omega)

/-- C4 witness: the characterisation applied at ranks {1, 4}, where the
estimate is 3: it is unused, and rank 4 (the only rank above it up to the
maximum) is indeed used. -/
theorem C4_estimate_greatest_unused_witness :
    estimate_new_enemy_rank [1, 4] ∉ ([1, 4] : List Nat)
      ∧ (4 : Nat) ∈ ([1, 4] : List Nat) :=
  ⟨(C4_estimate_greatest_unused [1, 4]).1,
    (C4_estimate_greatest_unused [1, 4]).2.2.2 4 (by decide) (by decide)⟩

/-- C9.  In `measure_stars`, the measured star width — the distance from the
percentage column's end to the stars-column end fixed by the backward scan —
is corrected by the count of bright/dark alternation peaks: a count below 3
triples it, a count of 4 or 5 scales it by 3/2, and any other count (3, or
6 and above) leaves it unchanged. -/
theorem C9_star_width_peak_correction (starsColEnd realStarsEnd_rel
    percColEnd : Int) (peaks : Nat) :
    (peaks < 3 → measure_stars_width starsColEnd realStarsEnd_rel percColEnd
        peaks
      = 3 * (((starsColEnd - 10 - realStarsEnd_rel : Int) : ℚ) - percColEnd))
    ∧ ((peaks = 4 ∨ peaks = 5) →
        measure_stars_width starsColEnd realStarsEnd_rel percColEnd peaks
      = (3 / 2) * (((starsColEnd - 10 - realStarsEnd_rel : Int) : ℚ)
          - percColEnd))
    ∧ ((peaks = 3 ∨ 6 ≤ peaks) →
        measure_stars_width starsColEnd realStarsEnd_rel percColEnd peaks
      = ((starsColEnd - 10 - realStarsEnd_rel : Int) : ℚ) - percColEnd) := by
  unfold measure_stars_width star_width_correction
  refine ⟨fun h => ?_, fun h => ?_, fun h => ?_⟩
  · rw [if_neg (by omega), if_pos (by omega)]; ring
  · rw [if_pos (by omega)]; ring
  · rw [if_neg (by omega), if_neg (by omega)]

lemma probeFrom_spec {α : Type} (s : List (Option α)) (j : Nat) :
    (∃ k, probeFrom s j = j + k ∧ k < s.length ∧ s[k]? = some none
        ∧ ∀ m, m < k → s[m]? ≠ some none)
      ∨ (probeFrom s j = j + s.length
        ∧ ∀ m, m < s.length → s[m]? ≠ some none) := by
  induction s generalizing j with
  | nil =>
    right
    refine ⟨by simp [probeFrom], fun m hm => ?_⟩
    simp at hm
  | cons x rest ih =>
    cases x with
    | none =>
      left
      exact ⟨0, by simp [probeFrom], by simp, by simp,
        fun m hm => absurd hm (by omega)⟩
    | some a =>
      rcases ih (j + 1) with ⟨k, h1, h2, h3, h4⟩ | ⟨h1, h2⟩
      · left
        refine ⟨k + 1, ?_, by simpa using Nat.succ_lt_succ h2, by simpa using h3,
          fun m hm => ?_⟩
        · rw [show probeFrom (some a :: rest) j = probeFrom rest (j + 1) from
            rfl, h1]
          omega
        · cases m with
          | zero => simp
          | succ m1 => simpa using h4 m1 (by omega)
      · right
        refine ⟨?_, fun m hm => ?_⟩
        · rw [show probeFrom (some a :: rest) j = probeFrom rest (j + 1) from
            rfl, h1]
          simp
          omega
        · cases m with
          | zero => simp
          | succ m1 => simpa using h2 m1 (by simpa using hm)

lemma probeFrom_drop_one {α : Type} (l : List (Option α)) (hl : l ≠ []) :
    (∃ k, 1 ≤ k ∧ k < l.length ∧ probeFrom (l.drop 1) 1 = k
        ∧ l[k]? = some none ∧ ∀ m, 1 ≤ m → m < k → l[m]? ≠ some none)
      ∨ (probeFrom (l.drop 1) 1 = l.length
        ∧ ∀ m, 1 ≤ m → m < l.length → l[m]? ≠ some none) := by
  cases l with
  | nil => exact absurd rfl hl
  | cons x rest =>
    rcases probeFrom_spec rest 1 with ⟨k, h1, h2, h3, h4⟩ | ⟨h1, h2⟩
    · left
      refine ⟨1 + k, by omega, by simp; omega, by simpa using h1,
        by simpa [Nat.add_comm] using h3, fun m hm1 hm2 => ?_⟩
      match m, hm1 with
      | m1 + 1, _ => simpa using h4 m1 (by omega)
    · right
      refine ⟨by simpa [Nat.add_comm] using h1, fun m hm1 hm2 => ?_⟩
      match m, hm1 with
      | m1 + 1, _ => simpa using h2 m1 (by simp at hm2; omega)

/-- C9 witness: two peaks means only the first star was present, so the
measured width 50 is tripled. -/
theorem C9_star_width_peak_correction_witness :
    measure_stars_width 320 10 250 2
      = 3 * (((320 - 10 - 10 : Int) : ℚ) - 250) :=
  (C9_star_width_peak_correction 320 10 250 2).1 (by decide)

/-- C6.  Whenever the validation block runs (measurement file present, debug
name set) and stored fallback records exist, a top-margin measurement that
fails validation — fraction outside the tolerance band around the stored
fraction, or a zero result — is replaced by exactly the stored absolute cut
(`m.menuTopMargin.cut`, not a recomputed value), the untouched bottom margin
follows its own flag, and the function returns a value rather than raising. -/
theorem C6_fallback_uses_stored_cut (errMarg : ℚ) (sT sB : imageSlice)
    (measuredTop measuredBottom srcH : Int)
    (hfail : failedTopMargin errMarg sT measuredTop srcH = true) :
    menu_crop_top_bottom true true errMarg (some sT) (some sB)
        measuredTop measuredBottom srcH
      = some (sT.cut,
          if failedBottomMargin errMarg sB measuredBottom srcH then sB.cut
            else measuredBottom) := by
  unfold menu_crop_top_bottom
  simp [hfail]

/-- C6 witness: a measured top margin of 300 against a stored fraction of
1/10 of a 1000-pixel image is out of the ±20% band and is replaced by the
stored cut 100; the bottom margin passes validation and is kept. -/
theorem C6_fallback_uses_stored_cut_witness :
    menu_crop_top_bottom true true (6 / 5)
        (some { cut := 100, percentage := 1 / 10 })
        (some { cut := 900, percentage := 2 / 25 }) 300 920 1000
      = some (100, 920) := by
  have h := C6_fallback_uses_stored_cut (6 / 5)
    { cut := 100, percentage := 1 / 10 } { cut := 900, percentage := 2 / 25 }
    300 920 1000 (by norm_num [failedTopMargin, outside_range])
  rw [h]
  norm_num [failedBottomMargin, outside_range]

/-- C5 (counterexample).  With ordinary scan results (`enemyStart = 5`,
`percentageBegin = 10`), the produced columns violate the claim: the enemy
column's begin is 5 pixels past the player column's end (a gap), and the
percentage column begins at the pre-nudge enemy end, strictly before the
re-centered enemy column's end (an overlap), so the begin/end sequence is
not monotonically non-decreasing either. -/
theorem C5_gap_and_overlap :
    (measure_data_columns exSegInputs).enemyCol.begin
        ≠ (measure_data_columns exSegInputs).playerCol.end_
      ∧ (measure_data_columns exSegInputs).percentageCol.begin
        < (measure_data_columns exSegInputs).enemyCol.end_ := by
  constructor <;>
    norm_num [measure_data_columns, dataColumn_mk, star_width_correction,
      exSegInputs]

/-- C5 (amended).  For any six-column pass: rank, level and player are
adjacent (`rank.end = level.begin`, `level.end = player.begin`); the enemy
column begins `enemyStart` pixels after the player column's end (a gap
whenever `enemyStart > 0`); the re-center adjustment nudges the enemy end by
`percentageBegin // 2 + 1` but, because `s.enemyCol.abs_pos += enemyCenter`
writes an instance attribute that shadows the class-level shared cursor,
the cursor is NOT advanced, so the percentage column begins at the
pre-adjustment enemy end and strictly overlaps the adjusted enemy column;
percentage and stars are adjacent; and each individual column's begin is at
most its end for the rank, level and player columns. -/
theorem C5_column_layout (i : measuredInputs) :
    (measure_data_columns i).rankCol.begin = 0
    ∧ (measure_data_columns i).rankCol.end_
        = (measure_data_columns i).levelCol.begin
    ∧ (measure_data_columns i).levelCol.end_
        = (measure_data_columns i).playerCol.begin
    ∧ (measure_data_columns i).enemyCol.begin
        = (measure_data_columns i).playerCol.end_ + (i.enemyStart : ℚ)
    ∧ (measure_data_columns i).enemyCol.end_
        = (i.enemyEnd_abs : ℚ) + ((i.percentageBegin / 2 + 1 : ℕ) : ℚ)
    ∧ (measure_data_columns i).percentageCol.begin = (i.enemyEnd_abs : ℚ)
    ∧ (measure_data_columns i).percentageCol.begin
        < (measure_data_columns i).enemyCol.end_
    ∧ (measure_data_columns i).percentageCol.end_
        = (measure_data_columns i).starsCol.begin
    ∧ (measure_data_columns i).rankCol.begin
        ≤ (measure_data_columns i).rankCol.end_
    ∧ (measure_data_columns i).levelCol.begin
        ≤ (measure_data_columns i).levelCol.end_
    ∧ (measure_data_columns i).playerCol.begin
        ≤ (measure_data_columns i).playerCol.end_
    ∧ (measure_data_columns i).playerCol.end_
        ≤ (measure_data_columns i).enemyCol.begin := by
  simp only [measure_data_columns, dataColumn_mk]
  refine ⟨by ring, by ring, by ring, by ring, by push_cast; ring, by ring,
    ?_, by ring, ?_, ?_, ?_, ?_⟩
  · push_cast
    have : (0 : ℚ) < ((i.percentageBegin / 2 + 1 : ℕ) : ℚ) := by positivity
    push_cast at this
    linarith
  · have : (0 : ℚ) ≤ (i.rankEnd : ℚ) := by positivity
    linarith
  · have : (0 : ℚ) ≤ (i.levelEnd : ℚ) := by positivity
    linarith
  · have : (0 : ℚ) ≤ (i.playerEnd : ℚ) := by positivity
    linarith
  · have : (0 : ℚ) ≤ (i.enemyStart : ℚ) := by positivity
    linarith

/-- C10.  The linear probe of `process_player_data` on a full-capacity
roster: if some slot `j` with `1 ≤ j ≤ MAX_WAR_PLAYERS − 1` is free, the
probe stops at the smallest such `j` — strictly inside the roster, so every
access is in bounds — and the player is placed there; if no slot in that
range is free, the probe's next access index is `MAX_WAR_PLAYERS` itself,
outside the fixed-capacity roster, and the embedded
`process_player_data` reports the out-of-bounds access as `none`. -/
theorem C10_probe_capacity (st : warState) (cfg : aliasCfg) (p : playerRec)
    (hlen : st.war_players.length = MAX_WAR_PLAYERS)
    (hmap : alookup cfg.aliasMap (strLower p.name) = none)
    (hname : p.name ≠ "") (hseen : p.name ∉ st.playersSeen)
    (hrank : p.rank = none) (hatk : p.attacks = []) :
    ((∃ j, 1 ≤ j ∧ j < MAX_WAR_PLAYERS ∧ st.war_players[j]? = some none) →
      (1 ≤ probeFrom (st.war_players.drop 1) 1
        ∧ probeFrom (st.war_players.drop 1) 1 < MAX_WAR_PLAYERS
        ∧ st.war_players[probeFrom (st.war_players.drop 1) 1]? = some none
        ∧ (∀ k, 1 ≤ k → k < probeFrom (st.war_players.drop 1) 1 →
            st.war_players[k]? ≠ some none)
        ∧ ∃ st1 q, process_player_data cfg st p = some st1
            ∧ st1.war_players[probeFrom (st.war_players.drop 1) 1]?
                = some (some q)
            ∧ q.name = p.name
            ∧ q.rank = some (probeFrom (st.war_players.drop 1) 1)))
    ∧ ((∀ j, j < MAX_WAR_PLAYERS → 1 ≤ j → st.war_players[j]? ≠ some none) →
      probeFrom (st.war_players.drop 1) 1 = MAX_WAR_PLAYERS
        ∧ process_player_data cfg st p = none) := by
  have hne : st.war_players ≠ [] := by
    intro h
    rw [h] at hlen
    simp [MAX_WAR_PLAYERS] at hlen
  have hchar := probeFrom_drop_one st.war_players hne
  rcases p with ⟨prank, pname, pattacks⟩
  simp only at hmap hname hseen
  subst hrank hatk
  constructor
  · rintro ⟨j, hj1, hj2, hj3⟩
    rcases hchar with ⟨k, h1, h2, h3, h4, h5⟩ | ⟨h1, h2⟩
    · rw [h3]
      have hplace : process_player_data cfg st ⟨none, pname, []⟩
          = some { st with
                     war_players := st.war_players.set k
                       (some ⟨some k, pname, []⟩),
                     playersSeen := pname :: st.playersSeen } := by
        rw [List.drop_one] at h3
        simp [process_player_data, resolve_alias, hmap, hname, hseen,
          need_free, foldAttacks, h3, h2]
      refine ⟨h1, hlen ▸ h2, h4, h5, _, ⟨some k, pname, []⟩, hplace, ?_, rfl,
        rfl⟩
      simpa using List.getElem?_set_eq_of_lt (some ⟨some k, pname, []⟩) h2
    · exact absurd hj3 (h2 j hj1 (hlen ▸ hj2))
  · intro hfull
    rcases hchar with ⟨k, h1, h2, h3, h4, h5⟩ | ⟨h1, h2⟩
    · exact absurd h4 (hfull k (hlen ▸ h2) h1)
    · refine ⟨hlen ▸ h1, ?_⟩
      rw [List.drop_one] at h1
      simp [process_player_data, resolve_alias, hmap, hname, hseen,
        need_free, h1]

/-- C10 witness: on the empty initial roster, slot 1 is free and the
record is placed there; the probe value is 1 and all bounds hold. -/
theorem C10_probe_capacity_witness :
    1 ≤ probeFrom (initialWarState.war_players.drop 1) 1
      ∧ probeFrom (initialWarState.war_players.drop 1) 1 < MAX_WAR_PLAYERS
      ∧ initialWarState.war_players[probeFrom
          (initialWarState.war_players.drop 1) 1]? = some none :=
  have h := (C10_probe_capacity initialWarState ⟨[], []⟩ ⟨none, "p", []⟩
    (by decide) (by decide) (by decide) (by decide) rfl rfl).1
    ⟨1, by decide, by decide, by decide⟩
  ⟨h.1, h.2.1, h.2.2.1⟩

lemma alookup_map_replace {α β : Type} [DecidableEq α] (l : List (α × β))
    (k : α) (v : β) (h : (alookup l k).isSome) :
    alookup (l.map (fun kv => if kv.1 = k then (k, v) else kv)) k = some v := by
  induction l with
  | nil => simp [alookup] at h
  | cons kv rest ih =>
    by_cases hk : kv.1 = k
    · rw [List.map_cons, if_pos hk]
      simp [alookup]
    · rw [List.map_cons, if_neg hk]
      have h1 : (alookup rest k).isSome := by simpa [alookup, hk] using h
      simp [alookup, hk, ih h1]

lemma alookup_dictInsert_self {α β : Type} [DecidableEq α]
    (l : List (α × β)) (k : α) (v : β) :
    alookup (dictInsert l k v) k = some v := by
  unfold dictInsert
  split
  · exact alookup_map_replace l k v (by assumption)
  · simp [alookup]

/-- C8 (counterexample).  An enemy first associated with rank 7 and later
seen with a READABLE OCR rank of 9 is renumbered: the recording step
overwrites the stored canonical rank with the newly read one, so "later
occurrences never renumber the first-assigned rank" fails. -/
theorem C8_readable_rank_renumbers :
    ((process_enemy_occurrence initialWarState (some "e") (some 7)).bind
      (fun st => process_enemy_occurrence st (some "e") (some 9))).map
        (fun st => alookup st.enemiesRanks (some "e"))
      = some (some 9)
    ∧ ((process_enemy_occurrence initialWarState (some "e") (some 7)).map
        (fun st => alookup st.enemiesRanks (some "e")))
      = some (some 7) := by
  constructor <;> rfl

/-- C8 (amended).  Once an enemy name holds a stored canonical rank, every
later occurrence whose rank is UNREADABLE reuses exactly that stored rank:
the occurrence is recorded under it in `war_enemies` and the stored mapping
is left at the same rank.  (An occurrence with a readable OCR rank instead
overwrites the stored rank.) -/
theorem C8_unreadable_rank_reuses_stored (st : warState) (t : String)
    (r : Nat) (hseen : (some t) ∈ st.enemiesSeen)
    (hrank : alookup st.enemiesRanks (some t) = some r)
    (hr : r < st.war_enemies.length) :
    ∃ st1, process_enemy_occurrence st (some t) none = some st1
      ∧ alookup st1.enemiesRanks (some t) = some r
      ∧ st1.war_enemies[r]? = some (some t) := by
  have heq : process_enemy_occurrence st (some t) none
      = some { st with
                 war_enemies := st.war_enemies.set r (some t),
                 enemiesRanks := dictInsert st.enemiesRanks (some t) r,
                 enemiesSeen := insertSeen st.enemiesSeen (some t) } := by
    simp [process_enemy_occurrence, attack_rank_resolution, hseen, hrank,
      record_attack, resolve_attack_rank, hr]
  refine ⟨_, heq, ?_, ?_⟩
  · exact alookup_dictInsert_self _ _ _
  · simpa using List.getElem?_set_eq_of_lt (some t) hr

/-- C8 witness: an enemy stored at rank 7 and seen again with an unreadable
rank is recorded at rank 7 and keeps canonical rank 7. -/
theorem C8_unreadable_rank_reuses_stored_witness :
    ∃ st1, process_enemy_occurrence
        { initialWarState with
            enemiesSeen := [some "e"],
            enemiesRanks := [(some "e", 7)] } (some "e") none = some st1
      ∧ alookup st1.enemiesRanks (some "e") = some 7
      ∧ st1.war_enemies[7]? = some (some "e") :=
  C8_unreadable_rank_reuses_stored
    { initialWarState with
        enemiesSeen := [some "e"],
        enemiesRanks := [(some "e", 7)] } "e" 7
    (by decide) (by decide) (by decide)

lemma getD_replicate_none {α : Type} (n i : Nat) :
    (List.replicate n (none : Option α)).getD i none = none := by
  rw [List.getD_eq_getElem?_getD, List.getElem?_replicate]
  split <;> rfl

lemma getD_set_ne {α : Type} (l : List (Option α)) (i j : Nat) (v : Option α)
    (h : i ≠ j) : (l.set i v).getD j none = l.getD j none := by
  rw [List.getD_eq_getElem?_getD, List.getD_eq_getElem?_getD,
    List.getElem?_set_ne h]

lemma mem_new_scores_names (l : List (Option playerRec)) (nm : String)
    (h : nm ∈ new_scores_names l) :
    ∃ p : playerRec, some p ∈ l ∧ p.name = nm := by
  unfold new_scores_names at h
  rcases List.mem_filterMap.mp h with ⟨e, he, heq⟩
  cases e with
  | none => simp at heq
  | some p =>
    by_cases hp : p.name = ""
    · simp [hp] at heq
    · simp [hp] at heq
      exact ⟨p, he, heq⟩

/-- C7.  A family with exactly two configured aliases, three records
resolving to it in one session at three distinct fresh roster slots: the
first two records are placed under the two aliases, giving exactly the two
family roster entries shown; processing the third record returns with the
state COMPLETELY unchanged (roster, seen-name sets, used-alias sets, enemy
maps), i.e. the record is silently dropped without raising; every name in
`new_scores` is one of the two aliases, and the third record's raw name
appears in neither the roster nor `new_scores`. -/
theorem C7_alias_exhaustion
    (cfg : aliasCfg) (canon a1 a2 n1 n2 n3 : String) (k1 k2 k3 : Nat)
    (hma : alookup cfg.multiAccounters canon = some [a1, a2])
    (h1 : alookup cfg.aliasMap (strLower n1) = some canon)
    (h2 : alookup cfg.aliasMap (strLower n2) = some canon)
    (h3 : alookup cfg.aliasMap (strLower n3) = some canon)
    (ha1 : a1 ≠ "") (ha2 : a2 ≠ "") (hne : a1 ≠ a2)
    (hk1 : k1 < MAX_WAR_PLAYERS) (hk2 : k2 < MAX_WAR_PLAYERS)
    (hk12 : k1 ≠ k2) (hk13 : k1 ≠ k3) (hk23 : k2 ≠ k3)
    (hn31 : n3 ≠ a1) (hn32 : n3 ≠ a2) :
    ∃ st2,
      process_records cfg initialWarState
          [⟨some k1, n1, []⟩, ⟨some k2, n2, []⟩] = some st2
      ∧ process_player_data cfg st2 ⟨some k3, n3, []⟩ = some st2
      ∧ process_records cfg initialWarState
          [⟨some k1, n1, []⟩, ⟨some k2, n2, []⟩, ⟨some k3, n3, []⟩] = some st2
      ∧ st2.war_players
          = ((List.replicate MAX_WAR_PLAYERS none).set k1
              (some ⟨some k1, a1, []⟩)).set k2 (some ⟨some k2, a2, []⟩)
      ∧ st2.playersSeen = [a2, a1]
      ∧ (∀ nm, nm ∈ new_scores_names st2.war_players → nm = a1 ∨ nm = a2)
      ∧ n3 ∉ new_scores_names st2.war_players := by
  have hlen : (List.replicate MAX_WAR_PLAYERS (none : Option playerRec)).length
      = MAX_WAR_PLAYERS := List.length_replicate _ _
  -- step 1: the first record gets alias a1 and slot k1
  have hstep1 : process_player_data cfg initialWarState ⟨some k1, n1, []⟩
      = some { initialWarState with
                 war_players := (List.replicate MAX_WAR_PLAYERS none).set k1
                   (some ⟨some k1, a1, []⟩),
                 playersSeen := [a1],
                 seenAliases := [(canon, [a1])] } := by
    simp [process_player_data, resolve_alias, initialWarState, h1,
      familySlotName, getD_replicate_none, alias_available, hma,
      setdefaultAliases, alookup, addUsedAlias, updateAliases, insertSeen,
      ha1, need_free, foldAttacks, hk1, Nat.not_le.mpr hk1]
  -- step 2: the second record gets alias a2 and slot k2
  have hstep2 : process_player_data cfg
      { initialWarState with
          war_players := (List.replicate MAX_WAR_PLAYERS none).set k1
            (some ⟨some k1, a1, []⟩),
          playersSeen := [a1],
          seenAliases := [(canon, [a1])] } ⟨some k2, n2, []⟩
      = some { initialWarState with
                 war_players := ((List.replicate MAX_WAR_PLAYERS none).set k1
                   (some ⟨some k1, a1, []⟩)).set k2 (some ⟨some k2, a2, []⟩),
                 playersSeen := [a2, a1],
                 seenAliases := [(canon, [a2, a1])] } := by
    have hslot2 : ((List.replicate MAX_WAR_PLAYERS
        (none : Option playerRec)).set k1
        (some ⟨some k1, a1, []⟩)).getD k2 none = none := by
      rw [getD_set_ne _ _ _ _ hk12, getD_replicate_none]
    simp [process_player_data, resolve_alias, initialWarState, h2,
      familySlotName, hslot2, alias_available, hma, setdefaultAliases,
      alookup, addUsedAlias, updateAliases, insertSeen, ha2, hne,
      Ne.symm hne, need_free, foldAttacks, hk2, Nat.not_le.mpr hk2,
      hk12, List.getElem_set_ne, List.getElem_replicate]
  -- step 3: the alias pool is exhausted, the record is dropped, state kept
  have hstep3 : process_player_data cfg
      { initialWarState with
          war_players := ((List.replicate MAX_WAR_PLAYERS none).set k1
            (some ⟨some k1, a1, []⟩)).set k2 (some ⟨some k2, a2, []⟩),
          playersSeen := [a2, a1],
          seenAliases := [(canon, [a2, a1])] } ⟨some k3, n3, []⟩
      = some { initialWarState with
                 war_players := ((List.replicate MAX_WAR_PLAYERS none).set k1
                   (some ⟨some k1, a1, []⟩)).set k2 (some ⟨some k2, a2, []⟩),
                 playersSeen := [a2, a1],
                 seenAliases := [(canon, [a2, a1])] } := by
    have hslot3 : (((List.replicate MAX_WAR_PLAYERS
        (none : Option playerRec)).set k1 (some ⟨some k1, a1, []⟩)).set k2
        (some ⟨some k2, a2, []⟩)).getD k3 none = none := by
      rw [getD_set_ne _ _ _ _ hk23, getD_set_ne _ _ _ _ hk13,
        getD_replicate_none]
    simp [process_player_data, resolve_alias, initialWarState, h3,
      familySlotName, hslot3, alias_available, hma, setdefaultAliases,
      alookup, hk13, hk23, List.getElem_set_ne, List.getElem_replicate]
  refine ⟨_, ?_, hstep3, ?_, rfl, rfl, ?_, ?_⟩
  · simp [process_records, hstep1, hstep2]
  · simp [process_records, hstep1, hstep2, hstep3]
  · intro nm hm
    rcases mem_new_scores_names _ _ hm with ⟨p, hp, hname⟩
    rcases List.mem_or_eq_of_mem_set hp with hp1 | hp1
    · rcases List.mem_or_eq_of_mem_set hp1 with hp2 | hp2
      · exact absurd (List.eq_of_mem_replicate hp2) (by simp)
      · left
        rw [← hname]
        cases hp2
        rfl
    · right
      rw [← hname]
      cases hp1
      rfl
  · intro hm
    rcases mem_new_scores_names _ _ hm with ⟨p, hp, hname⟩
    rcases List.mem_or_eq_of_mem_set hp with hp1 | hp1
    · rcases List.mem_or_eq_of_mem_set hp1 with hp2 | hp2
      · exact absurd (List.eq_of_mem_replicate hp2) (by simp)
      · apply hn31
        rw [← hname]
        cases hp2
        rfl
    · apply hn32
      rw [← hname]
      cases hp1
      rfl

/-- C7 witness: the family "kit" with aliases "Kit 1"/"Kit 2" and three
records named "Kit" at ranks 3, 7 and 9 produce exactly the two alias
entries, the third processing step leaves the state unchanged, and "Kit"
appears nowhere in the roster or `new_scores`. -/
theorem C7_alias_exhaustion_witness :
    ∃ st2,
      process_records
          ⟨[("kit", "kit"), ("kit 1", "kit"), ("kit 2", "kit")],
           [("kit", ["Kit 1", "Kit 2"])]⟩ initialWarState
          [⟨some 3, "Kit", []⟩, ⟨some 7, "Kit", []⟩] = some st2
      ∧ process_player_data
          ⟨[("kit", "kit"), ("kit 1", "kit"), ("kit 2", "kit")],
           [("kit", ["Kit 1", "Kit 2"])]⟩ st2 ⟨some 9, "Kit", []⟩ = some st2
      ∧ st2.war_players
          = ((List.replicate MAX_WAR_PLAYERS none).set 3
              (some ⟨some 3, "Kit 1", []⟩)).set 7 (some ⟨some 7, "Kit 2", []⟩)
      ∧ "Kit" ∉ new_scores_names st2.war_players := by
  have h := C7_alias_exhaustion
    ⟨[("kit", "kit"), ("kit 1", "kit"), ("kit 2", "kit")],
     [("kit", ["Kit 1", "Kit 2"])]⟩
    "kit" "Kit 1" "Kit 2" "Kit" "Kit" "Kit" 3 7 9
    (by decide) (by decide) (by decide) (by decide) (by decide) (by decide)
    (by decide) (by decide) (by decide) (by decide) (by decide) (by decide)
    (by decide) (by decide)
  rcases h with ⟨st2, hA, hB, _hC, hD, _hE, _hF, hG⟩
  exact ⟨st2, hA, hB, hD, hG⟩

lemma setdefaultAliases_fields (st : warState) (canon : String) :
    (setdefaultAliases st canon).war_players = st.war_players
    ∧ (setdefaultAliases st canon).playersSeen = st.playersSeen := by
  unfold setdefaultAliases
  split <;> exact ⟨rfl, rfl⟩

lemma alias_available_fields (cfg : aliasCfg) (st : warState)
    (canon : String) :
    (alias_available cfg st canon).2.war_players = st.war_players
    ∧ (alias_available cfg st canon).2.playersSeen = st.playersSeen := by
  unfold alias_available
  split
  · exact ⟨rfl, rfl⟩
  · simpa using setdefaultAliases_fields st canon

lemma resolve_alias_fields (cfg : aliasCfg) (st : warState) (p : playerRec) :
    (resolve_alias cfg st p).2.war_players = st.war_players
    ∧ (resolve_alias cfg st p).2.playersSeen = st.playersSeen := by
  unfold resolve_alias
  split
  · exact ⟨rfl, rfl⟩
  next canon hmap =>
    split
    · exact ⟨rfl, rfl⟩
    next hfam =>
      split
      next st1 hav =>
        have h := alias_available_fields cfg st canon
        rw [hav] at h
        exact h
      next a st1 hav =>
        have h := alias_available_fields cfg st canon
        rw [hav] at h
        simpa [addUsedAlias] using h

lemma resolve_attack_rank_fields (st : warState) (atk : attackRec)
    (st1 : warState) (rk : Option Nat)
    (h : resolve_attack_rank st atk = some (st1, rk)) :
    st1.war_players = st.war_players ∧ st1.playersSeen = st.playersSeen := by
  unfold resolve_attack_rank at h
  split at h
  · cases h
    exact ⟨rfl, rfl⟩
  · split at h
    · cases h
      exact ⟨rfl, rfl⟩
    · split at h
      · cases h
        exact ⟨rfl, rfl⟩
      · cases h

lemma record_attack_fields (st : warState) (a : attackRec) (st1 : warState)
    (a1 : attackRec) (h : record_attack st a = some (st1, a1)) :
    st1.war_players = st.war_players ∧ st1.playersSeen = st.playersSeen := by
  unfold record_attack at h
  split at h
  · cases h
  next stA rank1 heq =>
    have hA := resolve_attack_rank_fields st a stA rank1 heq
    split at h
    · split at h
      · cases h
        exact hA
      · cases h
    · cases h
      exact hA

lemma foldAttacks_fields (st : warState) (l : List attackRec)
    (st1 : warState) (l1 : List attackRec)
    (h : foldAttacks st l = some (st1, l1)) :
    st1.war_players = st.war_players ∧ st1.playersSeen = st.playersSeen := by
  induction l generalizing st l1 with
  | nil =>
    unfold foldAttacks at h
    cases h
    exact ⟨rfl, rfl⟩
  | cons a rest ih =>
    unfold foldAttacks at h
    split at h
    · cases h
    next stA a1 heq =>
      split at h
      · cases h
      next stB rest1 heq2 =>
        cases h
        have h1 := record_attack_fields st a stA a1 heq
        have h2 := ih stA rest1 heq2
        exact ⟨h2.1.trans h1.1, h2.2.trans h1.2⟩

/-- The placement slot chosen by `process_player_data` is free and in
range. -/
lemma placement_slot_free (st : warState) (rank0 : Option Nat) (r : Nat)
    (h : (if need_free st.war_players rank0 then
        (if probeFrom (st.war_players.drop 1) 1 < st.war_players.length
          then some (probeFrom (st.war_players.drop 1) 1) else none)
      else rank0) = some r) :
    r < st.war_players.length ∧ st.war_players[r]? = some none := by
  by_cases hnf : need_free st.war_players rank0 = true
  · rw [if_pos hnf] at h
    by_cases hp : probeFrom (st.war_players.drop 1) 1
        < st.war_players.length
    · rw [if_pos hp] at h
      cases h
      have hne : st.war_players ≠ [] := by
        intro he
        rw [he] at hp
        simp [probeFrom] at hp
      rcases probeFrom_drop_one st.war_players hne with
        ⟨k, _, hk2, hk3, hk4, _⟩ | ⟨h1, _⟩
      · rw [hk3]
        exact ⟨hk2, hk4⟩
      · rw [h1] at hp
        exact absurd hp (lt_irrefl _)
    · rw [if_neg hp] at h
      cases h
  · rw [if_neg hnf] at h
    cases rank0 with
    | none => cases h
    | some r0 =>
      cases h
      have h1 : ¬ (st.war_players.length ≤ r ∨
          (st.war_players.getD r none).isSome = true) := by
        intro hor
        apply hnf
        simp only [need_free]
        rcases hor with h2 | h2
        · simp [h2]
        · rw [Bool.or_eq_true]
          right
          exact h2
      push_neg at h1
      have hlt : r < st.war_players.length := by omega
      refine ⟨hlt, ?_⟩
      have h2 := h1.2
      rw [List.getD_eq_getElem?_getD] at h2
      rcases h3 : st.war_players[r]? with _ | v
      · exact absurd h3 (by simp [List.getElem?_eq_none_iff]; omega)
      · rw [h3] at h2
        cases v with
        | none => rfl
        | some q => simp at h2

/-- One `process_player_data` step preserves roster exclusivity, the
placed-names-are-seen invariant, and every already placed record. -/
lemma process_player_data_step (cfg : aliasCfg) (st st' : warState)
    (p0 : playerRec) (hexc : rosterExclusive st.war_players)
    (hns : rosterNamesSeen st)
    (h : process_player_data cfg st p0 = some st') :
    rosterExclusive st'.war_players ∧ rosterNamesSeen st'
    ∧ ∀ (i : Nat) (q : playerRec), st.war_players[i]? = some (some q) →
        st'.war_players[i]? = some (some q) := by
  unfold process_player_data at h
  rcases hres : resolve_alias cfg st p0 with ⟨res, st1⟩
  have hf := resolve_alias_fields cfg st p0
  rw [hres] at h hf
  simp only at hf
  cases res with
  | none =>
    cases h
    refine ⟨by rw [hf.1]; exact hexc, ?_, ?_⟩
    · intro i q hq
      rw [hf.1] at hq
      rw [hf.2]
      exact hns i q hq
    · intro i q hq
      rw [hf.1]
      exact hq
  | some p =>
    simp only at h
    by_cases hg : p.name ≠ "" ∧ p.name ∉ st1.playersSeen
    · rw [if_pos hg] at h
      rcases hrk : (if need_free st1.war_players p.rank then
          (if probeFrom (st1.war_players.drop 1) 1 < st1.war_players.length
            then some (probeFrom (st1.war_players.drop 1) 1) else none)
        else p.rank) with _ | r
      · rw [hrk] at h
        cases h
      · rw [hrk] at h
        rcases hfold : foldAttacks st1 p.attacks with _ | ⟨st2, atks⟩
        · rw [hfold] at h
          cases h
        · rw [hfold] at h
          cases h
          have hff := foldAttacks_fields st1 p.attacks st2 atks hfold
          have hslot := placement_slot_free st1 p.rank r hrk
          rw [hf.1] at hslot
          have hseen1 : st1.playersSeen = st.playersSeen := hf.2
          have hwp2 : st2.war_players = st.war_players :=
            hff.1.trans hf.1
          have hps2 : st2.playersSeen = st.playersSeen :=
            hff.2.trans hf.2
          constructor
          · -- roster exclusivity after the set
            intro i j q1 q2 hi hj hnm
            simp only [hwp2] at hi hj
            by_cases hir : i = r <;> by_cases hjr : j = r
            · rw [hir, hjr]
            · subst hir
              rw [List.getElem?_set_eq_of_lt _ hslot.1] at hi
              cases hi
              rw [List.getElem?_set_ne (fun he => hjr he.symm)] at hj
              have := hns j q2 hj
              rw [← hseen1] at this
              simp only at hnm
              rw [← hnm] at this
              exact absurd this hg.2
            · subst hjr
              rw [List.getElem?_set_eq_of_lt _ hslot.1] at hj
              cases hj
              rw [List.getElem?_set_ne (fun he => hir he.symm)] at hi
              have := hns i q1 hi
              rw [← hseen1] at this
              simp only at hnm
              rw [hnm] at this
              exact absurd this hg.2
            · rw [List.getElem?_set_ne (fun he => hir he.symm)] at hi
              rw [List.getElem?_set_ne (fun he => hjr he.symm)] at hj
              exact hexc i j q1 q2 hi hj hnm
          constructor
          · -- names seen after the set
            intro i q hq
            simp only [hwp2] at hq
            by_cases hir : i = r
            · subst hir
              rw [List.getElem?_set_eq_of_lt _ hslot.1] at hq
              cases hq
              exact List.mem_cons_self _ _
            · rw [List.getElem?_set_ne (fun he => hir he.symm)] at hq
              have := hns i q hq
              rw [← hps2] at this
              exact List.mem_cons_of_mem _ this
          · -- previously placed records are untouched
            intro i q hq
            simp only [hwp2]
            have hir : i ≠ r := by
              intro he
              rw [he, hslot.2] at hq
              cases hq
            rw [List.getElem?_set_ne (fun he => hir he.symm)]
            exact hq
    · rw [if_neg hg] at h
      cases h
      refine ⟨by rw [hf.1]; exact hexc, ?_, ?_⟩
      · intro i q hq
        rw [hf.1] at hq
        rw [hf.2]
        exact hns i q hq
      · intro i q hq
        rw [hf.1]
        exact hq

lemma process_records_inv (cfg : aliasCfg) (recs : List playerRec)
    (st st' : warState) (hexc : rosterExclusive st.war_players)
    (hns : rosterNamesSeen st)
    (h : process_records cfg st recs = some st') :
    rosterExclusive st'.war_players ∧ rosterNamesSeen st'
    ∧ ∀ (i : Nat) (q : playerRec), st.war_players[i]? = some (some q) →
        st'.war_players[i]? = some (some q) := by
  induction recs generalizing st with
  | nil =>
    unfold process_records at h
    cases h
    exact ⟨hexc, hns, fun i q hq => hq⟩
  | cons p rest ih =>
    unfold process_records at h
    rcases hstep : process_player_data cfg st p with _ | st1
    · rw [hstep] at h
      cases h
    · rw [hstep] at h
      have h1 := process_player_data_step cfg st st1 p hexc hns hstep
      have h2 := ih st1 h1.1 h1.2.1 h
      exact ⟨h2.1, h2.2.1, fun i q hq => h2.2.2 i q (h1.2.2 i q hq)⟩

/-- C2.  Across any session (any two reachable states `st1`, `st2` of
`process_records` starting from the initial state): the final roster is
exclusive — no name occupies two rank slots, and each slot holds at most one
record, so no two distinct names share a rank; every record placed by an
earlier prefix is still present, unmoved and unmodified, later (no eviction
or overwriting); and a newly extracted player whose resolved name is unseen
and whose rank is missing, out of range, or occupied is placed at the lowest
unoccupied roster slot ≥ 1 found by the linear probe. -/
theorem C2_roster_reconciliation (cfg : aliasCfg)
    (recs1 recs2 : List playerRec) (st1 st2 : warState)
    (h1 : process_records cfg initialWarState recs1 = some st1)
    (h2 : process_records cfg st1 recs2 = some st2) :
    rosterExclusive st2.war_players
    ∧ (∀ (i : Nat) (q : playerRec), st1.war_players[i]? = some (some q) →
        st2.war_players[i]? = some (some q))
    ∧ ∀ (p : playerRec) (st3 : warState),
        alookup cfg.aliasMap (strLower p.name) = none →
        p.name ≠ "" → p.name ∉ st1.playersSeen →
        need_free st1.war_players p.rank = true →
        process_player_data cfg st1 p = some st3 →
        ∃ j, 1 ≤ j ∧ j < st1.war_players.length
          ∧ st1.war_players[j]? = some none
          ∧ (∀ m, 1 ≤ m → m < j → st1.war_players[m]? ≠ some none)
          ∧ ∃ q : playerRec, st3.war_players[j]? = some (some q)
              ∧ q.name = p.name ∧ q.rank = some j := by
  have hinit_exc : rosterExclusive initialWarState.war_players := by
    intro i j p q hi hj hnm
    rw [show initialWarState.war_players
      = List.replicate MAX_WAR_PLAYERS none from rfl,
      List.getElem?_replicate] at hi
    split at hi
    · cases hi
    · cases hi
  have hinit_ns : rosterNamesSeen initialWarState := by
    intro i p hp
    rw [show initialWarState.war_players
      = List.replicate MAX_WAR_PLAYERS none from rfl,
      List.getElem?_replicate] at hp
    split at hp
    · cases hp
    · cases hp
  have hA := process_records_inv cfg recs1 initialWarState st1
    hinit_exc hinit_ns h1
  have hB := process_records_inv cfg recs2 st1 st2 hA.1 hA.2.1 h2
  refine ⟨hB.1, hB.2.2, ?_⟩
  intro p st3 hmap hname hseen hneed hstep
  simp only [process_player_data, resolve_alias, hmap] at hstep
  rw [if_pos ⟨hname, hseen⟩, if_pos hneed] at hstep
  by_cases hp : probeFrom (st1.war_players.drop 1) 1 < st1.war_players.length
  · rw [if_pos hp] at hstep
    simp only at hstep
    rcases hfold : foldAttacks st1 p.attacks with _ | ⟨stB, atks⟩
    · rw [hfold] at hstep
      cases hstep
    · rw [hfold] at hstep
      cases hstep
      have hne : st1.war_players ≠ [] := by
        intro he
        rw [he] at hp
        simp [probeFrom] at hp
      have hfB := foldAttacks_fields st1 p.attacks stB atks hfold
      rcases probeFrom_drop_one st1.war_players hne with
        ⟨k, hk1, hk2, hk3, hk4, hk5⟩ | ⟨ha, _⟩
      · refine ⟨k, hk1, hk2, hk4, hk5,
          { p with rank := some k, attacks := atks }, ?_, rfl, rfl⟩
        rw [hk3]
        rw [show stB.war_players = st1.war_players from hfB.1]
        exact List.getElem?_set_eq_of_lt _ hk2
      · rw [ha] at hp
        exact absurd hp (lt_irrefl _)
  · rw [if_neg hp] at hstep
    cases hstep

/-- C2 witness: two records — one with a valid rank, one with an unreadable
rank probed to slot 1 — leave an exclusive roster in which "alice" is still
at slot 3. -/
theorem C2_roster_reconciliation_witness :
    rosterExclusive
      (((List.replicate MAX_WAR_PLAYERS (none : Option playerRec)).set 3
        (some ⟨some 3, "alice", []⟩)).set 1 (some ⟨some 1, "bob", []⟩))
    ∧ (((List.replicate MAX_WAR_PLAYERS (none : Option playerRec)).set 3
        (some ⟨some 3, "alice", []⟩)).set 1
        (some ⟨some 1, "bob", []⟩))[3]? = some (some ⟨some 3, "alice", []⟩) :=
  have h := C2_roster_reconciliation ⟨[], []⟩
    [⟨some 3, "alice", []⟩] [⟨none, "bob", []⟩]
    { initialWarState with
        war_players := (List.replicate MAX_WAR_PLAYERS none).set 3
          (some ⟨some 3, "alice", []⟩),
        playersSeen := ["alice"] }
    { initialWarState with
        war_players := ((List.replicate MAX_WAR_PLAYERS none).set 3
          (some ⟨some 3, "alice", []⟩)).set 1 (some ⟨some 1, "bob", []⟩),
        playersSeen := ["bob", "alice"] }
    (by decide) (by decide)
  ⟨h.1, h.2.1 3 ⟨some 3, "alice", []⟩ (by decide)⟩

end StarTracker
